import Mathlib

/-!
Verification of the EHR data-quality auditor scoring pipeline
(`src/ehr_data_quality_auditor.py`).

The pandas dataset is embedded as an ordered list of column names together with an
ordered list of records; a record assigns a cell value to every column name.  Cell
values carry the float special values (NaN and the signed infinities) explicitly, so
that the silent behaviour of pandas elementwise arithmetic and comparisons is
faithfully reproduced: comparisons with NaN are false, `x == 0` is false on NaN,
division by zero produces NaN or a signed infinity rather than raising.
-/

namespace EHRAudit

/-- Cell value of the tabular dataset: a rational number, a boolean flag, a string,
or one of the float special values NaN and the signed infinities. -/
inductive Val where
  | num (q : ℚ)
  | bool (b : Bool)
  | str (s : String)
  | nan
  | posInf
  | negInf
deriving DecidableEq

/-- Python truthiness of a cell value (note that float NaN is truthy in Python). -/
def Val.isTruthy : Val → Bool
  | .bool b => b
  | .num q => decide (q ≠ 0)
  | .str s => decide (s ≠ "")
  | .nan => true
  | .posInf => true
  | .negInf => true

/-- pandas `isnull` on one cell. -/
def Val.isNan : Val → Bool
  | .nan => true
  | _ => false

/-- pandas comparison `value == 0`: false on NaN and on strings; Python booleans compare
numerically, so `False == 0` holds. -/
def Val.eqZero : Val → Bool
  | .num q => decide (q = 0)
  | .bool b => !b
  | _ => false

/-- Numeric magnitude of a cell in pandas elementwise sums: booleans count as 0/1 and
NaN is skipped (contributes 0). -/
def Val.numVal : Val → ℚ
  | .num q => q
  | .bool b => if b then 1 else 0
  | _ => 0

/-- `astype(int)` conversion applied to a flag column before weighting.  The flag
columns produced by the pipeline hold booleans; on a numeric cell the conversion is an
integer truncation (`astype` raises on the remaining kinds, which never occur there). -/
def Val.asInt : Val → ℚ
  | .bool b => if b then 1 else 0
  | .num q => (Rat.floor q : ℚ)
  | _ => 0

/-- Numeric reading used by the quantile and median computations: pandas drops NaN
before computing quantiles, and booleans count as 0/1. -/
def Val.toNum : Val → Option ℚ
  | .num q => some q
  | .bool b => some (if b then 1 else 0)
  | _ => none

/-- Rendering of a cell value inside an f-string of the error log.  Python float
formatting is abstracted as exact rational rendering; no claim depends on the rendered
digits. -/
def Val.render : Val → String
  | .num q => toString q
  | .bool b => if b then "True" else "False"
  | .str s => s
  | .nan => "nan"
  | .posInf => "inf"
  | .negInf => "-inf"

/-- Inclusive pandas comparison `series.between(lo, hi)` on one cell: comparisons with
NaN (and non-numeric cells) are false. -/
def Val.betweenQ (v : Val) (lo hi : ℚ) : Bool :=
  match v.toNum with
  | some q => decide (lo ≤ q) && decide (q ≤ hi)
  | none => false

/-- pandas `replace(additional_missing_values, np.nan)` on one cell; the placeholder
tokens are strings, so only string cells are affected. -/
def Val.replaceMissing (ph : List String) : Val → Val
  | .str s => if s ∈ ph then .nan else .str s
  | v => v

/-- A record: an assignment of cell values to column names (only the names listed in the
frame's columns are meaningful). -/
abbrev Row : Type := String → Val

/-- The in-memory tabular dataset: ordered column names and ordered records. -/
structure DFrame where
  cols : List String
  rows : List Row

/-- Column assignment `df[name] = f(row)`: pandas overwrites an existing column in place
and appends a new one at the end. -/
def DFrame.addColF (d : DFrame) (name : String) (f : Row → Val) : DFrame :=
  ⟨if name ∈ d.cols then d.cols else d.cols ++ [name],
   d.rows.map fun r => Function.update r name (f r)⟩

/-- Column assignment from a positional list of values (`df[name] = preds`). -/
def DFrame.addColVals (d : DFrame) (name : String) (vs : List Val) : DFrame :=
  ⟨if name ∈ d.cols then d.cols else d.cols ++ [name],
   (d.rows.zip vs).map fun p => Function.update p.1 name p.2⟩

/-- The series `df[c]`. -/
def DFrame.colSeries (d : DFrame) (c : String) : List Val :=
  d.rows.map fun r => r c

/-- The value of column `c` in record `i` of a frame. -/
def DFrame.cell (d : DFrame) (i : ℕ) (c : String) : Option Val :=
  (d.rows[i]?).map fun r => r c

/-- Python `str.endswith`, on character data. -/
def hasSuffix (s suff : String) : Bool :=
  suff.data.isSuffixOf s.data

/-! ### Module 2: missing value analysis -/

/-- The default `additional_missing_values` placeholder tokens. -/
def defaultPlaceholders : List String := ["", "N/A", "Unknown"]

/-- Per-row numerator of the completeness score as the source computes it:
`row.isnull().sum()` over all current columns plus the sum of
`row.get(col + "_Missing", False)` over the configured zero-as-missing columns. -/
def completenessNumerator (cols zc : List String) (r : Row) : ℚ :=
  ((cols.countP fun c => (r c).isNan : ℕ) : ℚ) +
    (zc.map fun z =>
      if (z ++ "_Missing") ∈ cols then (r (z ++ "_Missing")).numVal else 0).sum

/-- One step of the zero-as-missing loop: `df[col + "_Missing"] = (df[col] == 0)`. -/
def addMissingFlag (d : DFrame) (z : String) : DFrame :=
  d.addColF (z ++ "_Missing") fun r => .bool (r z).eqZero

/-- `missing_value_analysis`: normalize the placeholder tokens to NaN, add the
zero-as-missing flag columns, and append the per-record completeness score column with
denominator `data_cols_count` (all columns minus the `_Missing` flag columns).  The
reporting summary table the source also returns carries no score and is not modelled. -/
def missing_value_analysis (df : DFrame) (zc : List String) : DFrame :=
  let d1 : DFrame :=
    ⟨df.cols, df.rows.map fun r => fun c => (r c).replaceMissing defaultPlaceholders⟩
  let d2 := zc.foldl addMissingFlag d1
  let dcc : ℕ := d2.cols.length - d2.cols.countP (fun c => hasSuffix c "_Missing")
  d2.addColF "Completeness_Score (%)" fun r =>
    .num (100 * (1 - completenessNumerator d2.cols zc r / (dcc : ℚ)))

/-! ### Module 3: univariate outlier detection -/

/-- Numeric entries of a series in order (pandas drops NaN before quantiles). -/
def nonMissingVals (s : List Val) : List ℚ :=
  s.filterMap Val.toNum

/-- Linear-interpolation quantile at probability a/b over a list of rationals (the
pandas/numpy default method): position p(n-1) on the sorted values, interpolating
between the two neighbouring order statistics.  `none` on an empty list (pandas NaN). -/
def quantile (xs : List ℚ) (a b : ℕ) : Option ℚ :=
  match xs with
  | [] => none
  | _ :: _ =>
    let s := xs.insertionSort (· ≤ ·)
    let pos := a * (xs.length - 1)
    let i := pos / b
    let f : ℚ := ((pos % b : ℕ) : ℚ) / (b : ℚ)
    some (s.getD i 0 + f * (s.getD (i + 1) 0 - s.getD i 0))

/-- `detect_outliers_iqr`: the Tukey fence from the interpolated quartiles of the
series's non-missing values, flagging `~series.between(lower, upper)`.  When the series
has no numeric values the quartiles are NaN, `between` is false everywhere, and every
entry is flagged. -/
def detect_outliers_iqr (s : List Val) : List Bool :=
  match quantile (nonMissingVals s) 1 4, quantile (nonMissingVals s) 3 4 with
  | some q1, some q3 =>
    let iqr := q3 - q1
    s.map fun v => !v.betweenQ (q1 - 3/2 * iqr) (q3 + 3/2 * iqr)
  | _, _ => s.map fun _ => true

/-- `outlier_detection`: one flag column per configured field. -/
def outlier_detection (df : DFrame) (cs : List String) : DFrame :=
  cs.foldl
    (fun d c =>
      d.addColVals (c ++ "_Outlier") ((detect_outliers_iqr (d.colSeries c)).map Val.bool))
    df

/-! ### Module 3b: isolation forest anomaly detection -/

/-- Median of a series: the 0.5 interpolated quantile of its numeric values. -/
def colMedian (s : List Val) : Option ℚ :=
  quantile (nonMissingVals s) 1 2

/-- The feature matrix `df[cols].fillna(df[cols].median())`: per-column median
imputation, local to the anomaly detector (an all-NaN column has a NaN median and is
left unfilled). -/
def featureMatrix (df : DFrame) (cols : List String) : List (List Val) :=
  df.rows.map fun r => cols.map fun c =>
    match r c with
    | .nan =>
      match colMedian (df.colSeries c) with
      | some m => .num m
      | none => .nan
    | v => v

/-- `anomaly_detection_isolation_forest`.  The scikit-learn IsolationForest with a fixed
`random_state` is, by its documented contract, a deterministic function of the
contamination, the seed and the fitted matrix; it is modelled as an explicit function
argument `forest` taking exactly those inputs and returning the `fit_predict` labels
(-1 for anomalies). -/
def anomaly_detection_isolation_forest (forest : ℚ → ℕ → List (List Val) → List Int)
    (df : DFrame) (cols : List String) (contamination : ℚ) (random_state : ℕ) : DFrame :=
  let preds := forest contamination random_state (featureMatrix df cols)
  df.addColVals "Row_AnomalyIF" (preds.map fun p => Val.bool (p == -1))

/-! ### Module 4: clinical range check -/

/-- `clinical_range_check`: for each configured field present in the frame, flag the
values outside the inclusive range; configured fields absent from the frame are
silently skipped. -/
def clinical_range_check (df : DFrame) (ranges : List (String × ℚ × ℚ)) : DFrame :=
  ranges.foldl
    (fun d p =>
      if p.1 ∈ d.cols then
        d.addColF (p.1 ++ "_RangeError") fun r => .bool (!(r p.1).betweenQ p.2.1 p.2.2)
      else d)
    df

/-! ### Module 6: scoring -/

/-- Flag columns are discovered by name suffix. -/
def isErrorCol (c : String) : Bool :=
  hasSuffix c "_Missing" || hasSuffix c "_Outlier" || hasSuffix c "_RangeError" ||
    hasSuffix c "_FormatError" || hasSuffix c "_AnomalyIF"

/-- The discovered flag columns, in column order. -/
def errorColsOf (cols : List String) : List String :=
  cols.filter isErrorCol

/-- `dict.setdefault(col, 1)`: insert a defaulted entry only when the key is absent. -/
def setdefault1 (w : List (String × ℚ)) (c : String) : List (String × ℚ) :=
  if (w.lookup c).isSome then w else w ++ [(c, 1)]

/-- The weight table after the setdefault loop over the discovered flag columns. -/
def applyDefaults (w : List (String × ℚ)) (cs : List String) : List (String × ℚ) :=
  cs.foldl setdefault1 w

/-- The caller's weight table as it stands after `classify_errors_and_score` returns:
the scoring engine mutates the caller's dict in place via `setdefault`, so the updated
table is also the caller's mapping after the call. -/
def finalWeights (df : DFrame) (w : List (String × ℚ)) : List (String × ℚ) :=
  applyDefaults w (errorColsOf df.cols)

/-- `total_weight = sum(error_weights.values())`. -/
def totalWeight (df : DFrame) (w : List (String × ℚ)) : ℚ :=
  ((finalWeights df w).map Prod.snd).sum

/-- `Weighted_Errors` of one record: the sum over flag columns of `astype(int)` of the
flag times its weight. -/
def weightedErrorsRow (ecols : List String) (ew : List (String × ℚ)) (r : Row) : ℚ :=
  (ecols.map fun c => (r c).asInt * ((ew.lookup c).getD 0)).sum

/-- `Total_Errors` of one record: `df[error_cols].sum(axis=1)`. -/
def totalErrorsRow (ecols : List String) (r : Row) : ℚ :=
  (ecols.map fun c => (r c).numVal).sum

/-- Elementwise pandas division: a finite quotient when the divisor is nonzero; 0/0 is
NaN and x/0 for nonzero x is a signed infinity — no exception is raised. -/
def pandasDiv (a b : ℚ) : Val :=
  if b ≠ 0 then .num (a / b)
  else if a = 0 then .nan
  else if 0 < a then .posInf
  else .negInf

/-- One quality score cell: `100 - Weighted_Errors / total_weight * 100` under pandas
float semantics (NaN and the infinities propagate through the affine map). -/
def qualityScoreVal (we tw : ℚ) : Val :=
  match pandasDiv we tw with
  | .num q => .num (100 - q * 100)
  | .posInf => .negInf
  | .negInf => .posInf
  | v => v

/-- Base field of a flag name: `col.split(sep)[0]` with separator the underscore. -/
def baseColOf (c : String) : String :=
  (c.splitOn "_").headD ""

/-- `Error_Log` of one record: the triggered flags, each with the value of its base
field (or N/A when that column is absent), joined by a semicolon, or the sentinel. -/
def errorLogRow (ecols cols : List String) (r : Row) : String :=
  let entries := (ecols.filter fun c => (r c).isTruthy).map fun c =>
    c ++ " (" ++ (if baseColOf c ∈ cols then (r (baseColOf c)).render else "N/A") ++ ")"
  if entries.isEmpty then "No Errors" else String.intercalate "; " entries

/-- `reset_index` record part: a 0-based positional index value per record. -/
def indexRows (i : ℕ) : List Row → List Row
  | [] => []
  | r :: rs => Function.update r "Row_Index" (.num i) :: indexRows (i + 1) rs

/-- `df.reset_index()` followed by the rename to `Row_Index`. -/
def addRowIndex (d : DFrame) : DFrame :=
  ⟨"Row_Index" :: d.cols, indexRows 0 d.rows⟩

/-- `classify_errors_and_score`: discover the flag columns by suffix, default their
weights, and append `Weighted_Errors`, `Total_Errors`, `Quality_Score (%)`, `Row_Index`
and `Error_Log`.  Returns the augmented frame and the discovered flag columns. -/
def classify_errors_and_score (df : DFrame) (wOpt : Option (List (String × ℚ))) :
    DFrame × List String :=
  let ecols := errorColsOf df.cols
  let ew := match wOpt with
    | none => ecols.map fun c => (c, (1 : ℚ))
    | some w => applyDefaults w ecols
  let tw : ℚ := (ew.map Prod.snd).sum
  let d1 := df.addColF "Weighted_Errors" fun r => .num (weightedErrorsRow ecols ew r)
  let d2 := d1.addColF "Total_Errors" fun r => .num (totalErrorsRow ecols r)
  let d3 := d2.addColF "Quality_Score (%)" fun r =>
    qualityScoreVal (r "Weighted_Errors").numVal tw
  let d4 := addRowIndex d3
  let d5 := d4.addColF "Error_Log" fun r => .str (errorLogRow ecols d4.cols r)
  (d5, ecols)

/-! ### Spec-side definitions (stated from the specification's words, for the
functional-correctness claims that compare the code against the spec's formulas) -/

/-- Spec-side weighted error count: the weight when the flag is true, else 0; a flag
without an explicit entry in the caller's table weighs 1. -/
def specWeightedErrors (ecols : List String) (w : List (String × ℚ)) (r : Row) : ℚ :=
  (ecols.map fun c => if r c = .bool true then (w.lookup c).getD 1 else 0).sum

/-- Spec-side count of explicit missing markers of a record after placeholder
normalization. -/
def markerMissingCount (cols : List String) (r : Row) : ℕ :=
  cols.countP fun c => ((r c).replaceMissing defaultPlaceholders).isNan

/-- Spec-side count of zero-as-missing flags true for a record (computed, as in the
source, on the normalized values). -/
def zeroMissingCount (zc : List String) (r : Row) : ℕ :=
  zc.countP fun z => ((r z).replaceMissing defaultPlaceholders).eqZero

/-! ### Auxiliary definitions used by the proofs -/

/-- Removal of the entry found by a lookup (used to bound sums over a weight table). -/
def removeKey (t : List (String × ℚ)) (k : String) : List (String × ℚ) :=
  t.eraseP fun p => p.1 == k

/-- The zero-as-missing flag loop acting on one record. -/
def flagFoldRow (zc : List String) (r : Row) : Row :=
  zc.foldl (fun r z => Function.update r (z ++ "_Missing") (.bool (r z).eqZero)) r

/-! ### Concrete data used by counterexamples and witnesses -/

/-- A record with one triggered and one untriggered flag. -/
def rowC1 : Row := fun c =>
  if c = "A_Missing" then Val.bool true
  else if c = "B_Missing" then Val.bool false
  else Val.nan

/-- A frame with two flag columns and a single record. -/
def dfC1 : DFrame := ⟨["A_Missing", "B_Missing"], [rowC1]⟩

def w1C1 : List (String × ℚ) := [("A_Missing", 1), ("B_Missing", 1)]

def w2C1 : List (String × ℚ) := [("A_Missing", 1), ("B_Missing", 2)]

/-- A record whose single flag is triggered. -/
def rowC2 : Row := fun _ => Val.bool true

/-- A frame with one flag column and a single record. -/
def dfC2 : DFrame := ⟨["A_Missing"], [rowC2]⟩

/-- A weight table giving the only flag weight 0, so the total weight is 0. -/
def wC2 : List (String × ℚ) := [("A_Missing", 0)]

/-- A frame whose single flag column is false in its only record. -/
def dfC4 : DFrame := ⟨["B_Missing"], [rowC1]⟩

/-- A record whose every cell is the number 0. -/
def rowC5 : Row := fun _ => Val.num 0

/-- A one-column clinical frame with a single all-zero record. -/
def dfC5 : DFrame := ⟨["Glucose"], [rowC5]⟩

/-- A weight table with one positive entry (for a flag the frame does not carry). -/
def wC5 : List (String × ℚ) := [("X", 5)]

/-- A small series with one extreme value, for the outlier fence. -/
def sC6 : List Val := [Val.num 1, Val.num 2, Val.num 3, Val.num 100]

/-- A series with a missing middle entry. -/
def sC9 : List Val := [Val.num 1, Val.nan, Val.num 2]

/-- A record whose every cell is missing. -/
def rowC9 : Row := fun _ => Val.nan

/-- A one-column frame whose only record is missing in that column. -/
def dfC9 : DFrame := ⟨["BMI"], [rowC9]⟩

/-- A trivial forest function standing in for a fitted IsolationForest run. -/
def forestC8 : ℚ → ℕ → List (List Val) → List Int := fun _ _ m => m.map fun _ => -1

/-! ### Helper lemmas: strings and suffixes -/

theorem hasSuffix_append_self (s t : String) : hasSuffix (s ++ t) t = true := by
  simp [hasSuffix, String.data_append, List.isSuffixOf_iff_suffix]

theorem ne_of_suffix_mismatch {a b t : String} (ha : hasSuffix a t = true)
    (hb : hasSuffix b t = false) : a ≠ b := by
  intro h
  rw [h, hb] at ha
  cases ha

theorem append_suffix_inj {s₁ s₂ t : String} (h : s₁ ++ t = s₂ ++ t) : s₁ = s₂ := by
  have h2 := congrArg String.data h
  rw [String.data_append, String.data_append] at h2
  exact String.ext (List.append_cancel_right h2)

theorem append_ne_self {s t : String} (ht : t ≠ "") : s ++ t ≠ s := by
  intro h
  apply ht
  have hl := congrArg String.length h
  rw [String.length_append] at hl
  have hl' : t.length = 0 := by omega
  have h0 : t.data.length = 0 := hl'
  exact String.ext (List.length_eq_zero.mp h0)

theorem isErrorCol_of_missing {c : String} (h : hasSuffix c "_Missing" = true) :
    isErrorCol c = true := by
  simp [isErrorCol, h]

/-! ### Helper lemmas: frame operations -/

theorem addColF_rows (d : DFrame) (n : String) (f : Row → Val) (i : ℕ) :
    (d.addColF n f).rows[i]? = (d.rows[i]?).map fun r => Function.update r n (f r) := by
  simp [DFrame.addColF]

theorem addColF_cols_of_not_mem (d : DFrame) (n : String) (f : Row → Val)
    (h : n ∉ d.cols) : (d.addColF n f).cols = d.cols ++ [n] := by
  simp [DFrame.addColF, h]

theorem mem_addColF_cols (d : DFrame) (n : String) (f : Row → Val) {c : String}
    (h : c ∈ d.cols) : c ∈ (d.addColF n f).cols := by
  by_cases hn : n ∈ d.cols <;> simp [DFrame.addColF, hn, h]

theorem indexRows_getElem (j : ℕ) (l : List Row) (i : ℕ) :
    (indexRows j l)[i]? =
      (l[i]?).map fun r => Function.update r "Row_Index" (.num ((j + i : ℕ) : ℚ)) := by
  induction l generalizing j i with
  | nil => simp [indexRows]
  | cons r rs ih =>
    cases i with
    | zero => simp [indexRows]
    | succ i =>
      have hj : j + 1 + i = j + (i + 1) := by omega
      simp only [indexRows, List.getElem?_cons_succ, ih (j + 1) i, hj]

/-! ### Helper lemmas: weight-table defaults -/

theorem applyDefaults_cons (w : List (String × ℚ)) (c : String) (cs : List String) :
    applyDefaults w (c :: cs) = applyDefaults (setdefault1 w c) cs := rfl

theorem lookup_setdefault1_self (w : List (String × ℚ)) (c : String) :
    (setdefault1 w c).lookup c = some ((w.lookup c).getD 1) := by
  unfold setdefault1
  cases hw : w.lookup c with
  | some v => simp [hw]
  | none => simp [hw, List.lookup_append]

theorem lookup_setdefault1_ne (w : List (String × ℚ)) {c k : String} (h : k ≠ c) :
    (setdefault1 w c).lookup k = w.lookup k := by
  unfold setdefault1
  split
  · rfl
  · rw [List.lookup_append]
    have hb : (k == c) = false := by simp [h]
    simp [List.lookup_cons, hb]

theorem lookup_setdefault1_of_isSome (w : List (String × ℚ)) (c : String) {k : String}
    (h : (w.lookup k).isSome) : (setdefault1 w c).lookup k = w.lookup k := by
  unfold setdefault1
  split
  · rfl
  · rw [List.lookup_append]
    cases hw : w.lookup k
    · rw [hw] at h; cases h
    · rfl

theorem lookup_applyDefaults (cs : List String) :
    ∀ (w : List (String × ℚ)) (k : String),
      (applyDefaults w cs).lookup k =
        if (w.lookup k).isSome then w.lookup k
        else if k ∈ cs then some 1 else none := by
  induction cs with
  | nil =>
    intro w k
    cases hw : w.lookup k <;> simp [applyDefaults, hw]
  | cons c cs ih =>
    intro w k
    rw [applyDefaults_cons, ih]
    by_cases hkc : k = c
    · subst hkc
      rw [lookup_setdefault1_self]
      cases hw : w.lookup k <;> simp [hw]
    · rw [lookup_setdefault1_ne w hkc]
      cases hw : w.lookup k <;> simp [hw, hkc]

theorem lookup_applyDefaults_mem {cs : List String} (w : List (String × ℚ)) {k : String}
    (h : k ∈ cs) : (applyDefaults w cs).lookup k = some ((w.lookup k).getD 1) := by
  rw [lookup_applyDefaults]
  cases hw : w.lookup k <;> simp [hw, h]

theorem mem_setdefault1 {p : String × ℚ} (w : List (String × ℚ)) (c : String)
    (h : p ∈ setdefault1 w c) : p ∈ w ∨ p.2 = 1 := by
  unfold setdefault1 at h
  split at h
  · exact Or.inl h
  · rcases List.mem_append.mp h with h | h
    · exact Or.inl h
    · right
      simp only [List.mem_singleton] at h
      rw [h]

theorem mem_applyDefaults {p : String × ℚ} (cs : List String) :
    ∀ w : List (String × ℚ), p ∈ applyDefaults w cs → p ∈ w ∨ p.2 = 1 := by
  induction cs with
  | nil => exact fun w h => Or.inl h
  | cons c cs ih =>
    intro w h
    rw [applyDefaults_cons] at h
    rcases ih (setdefault1 w c) h with h | h
    · exact mem_setdefault1 w c h
    · exact Or.inr h

/-! ### Helper lemmas: bounding a sum of looked-up values by the total of the table -/

theorem lookup_removeKey_ne {k k' : String} (h : k' ≠ k) :
    ∀ t : List (String × ℚ), (removeKey t k).lookup k' = t.lookup k' := by
  intro t
  induction t with
  | nil => rfl
  | cons p t ih =>
    rw [removeKey, List.eraseP_cons]
    by_cases hp : p.1 = k
    · simp only [hp, beq_self_eq_true, cond_true]
      rw [List.lookup_cons]
      have : (k' == p.1) = false := by simp [hp, h]
      simp [this]
    · have hb : (p.1 == k) = false := by simp [hp]
      simp only [hb, cond_false]
      rw [List.lookup_cons, List.lookup_cons]
      cases hkk : k' == p.1
      · simpa [removeKey] using ih
      · rfl

theorem sum_removeKey {k : String} {v : ℚ} :
    ∀ t : List (String × ℚ), t.lookup k = some v →
      (t.map Prod.snd).sum = v + ((removeKey t k).map Prod.snd).sum := by
  intro t
  induction t with
  | nil => intro h; cases h
  | cons p t ih =>
    intro h
    rw [List.lookup_cons] at h
    rw [removeKey, List.eraseP_cons]
    cases hkp : k == p.1 with
    | true =>
      rw [hkp] at h
      simp only at h
      have hp : p.1 = k := by
        have := eq_of_beq hkp
        rw [this]
      have hv : p.2 = v := by injection h
      simp only [hp, beq_self_eq_true, cond_true, List.map_cons, List.sum_cons, hv]
    | false =>
      rw [hkp] at h
      simp only at h
      have hp : (p.1 == k) = false := by
        cases hpk : p.1 == k
        · rfl
        · have := eq_of_beq hpk
          rw [this, beq_self_eq_true] at hkp
          cases hkp
      simp only [hp, cond_false, List.map_cons, List.sum_cons]
      rw [ih h]
      simp only [removeKey]
      ring

theorem mem_removeKey {p : String × ℚ} {t : List (String × ℚ)} {k : String}
    (h : p ∈ removeKey t k) : p ∈ t :=
  (List.eraseP_sublist t).subset h

theorem sum_lookup_le (ks : List String) :
    ∀ t : List (String × ℚ), ks.Nodup → (∀ k ∈ ks, (t.lookup k).isSome) →
      (∀ p ∈ t, 0 ≤ p.2) →
      (ks.map fun k => (t.lookup k).getD 0).sum ≤ (t.map Prod.snd).sum := by
  induction ks with
  | nil =>
    intro t _ _ hnn
    simp only [List.map_nil, List.sum_nil]
    apply List.sum_nonneg
    intro x hx
    rcases List.mem_map.mp hx with ⟨p, hp, hpx⟩
    rw [← hpx]
    exact hnn p hp
  | cons k ks ih =>
    intro t hnd hsome hnn
    have hk := hsome k (List.mem_cons_self k ks)
    cases hv : t.lookup k with
    | none => rw [hv] at hk; cases hk
    | some v =>
      rw [List.map_cons, List.sum_cons, hv, Option.getD_some, sum_removeKey t hv]
      apply add_le_add_left
      have hmap : (ks.map fun k' => (t.lookup k').getD 0) =
          ks.map fun k' => ((removeKey t k).lookup k').getD 0 := by
        apply List.map_congr_left
        intro k' hk'
        have hne : k' ≠ k := by
          intro he
          rw [he] at hk'
          exact (List.nodup_cons.mp hnd).1 hk'
        rw [lookup_removeKey_ne hne]
      rw [hmap]
      apply ih
      · exact (List.nodup_cons.mp hnd).2
      · intro k' hk'
        have hne : k' ≠ k := by
          intro he
          rw [he] at hk'
          exact (List.nodup_cons.mp hnd).1 hk'
        rw [lookup_removeKey_ne hne]
        exact hsome k' (List.mem_cons_of_mem k hk')
      · exact fun p hp => hnn p (mem_removeKey hp)

/-! ### Helper lemmas: evaluating the scoring engine's output cells -/

theorem addRowIndex_rows (d : DFrame) : (addRowIndex d).rows = indexRows 0 d.rows := rfl

theorem addRowIndex_cols (d : DFrame) : (addRowIndex d).cols = "Row_Index" :: d.cols := rfl

theorem mem_errorColsOf {cols : List String} {c : String} (h : c ∈ errorColsOf cols) :
    isErrorCol c = true :=
  (List.mem_filter.mp h).2

theorem errorCol_ne_derived {c : String} (h : isErrorCol c = true) :
    c ≠ "Weighted_Errors" ∧ c ≠ "Total_Errors" ∧ c ≠ "Quality_Score (%)" ∧
      c ≠ "Row_Index" ∧ c ≠ "Error_Log" := by
  refine ⟨?_, ?_, ?_, ?_, ?_⟩ <;> intro he <;> rw [he] at h <;> exact absurd h (by decide)

theorem totalErrorsRow_update_ne (ecols : List String) (r : Row) (n : String) (v : Val)
    (h : ∀ c ∈ ecols, c ≠ n) :
    totalErrorsRow ecols (Function.update r n v) = totalErrorsRow ecols r := by
  unfold totalErrorsRow
  congr 1
  apply List.map_congr_left
  intro c hc
  rw [Function.update_noteq (h c hc)]

theorem classify_cell_we (df : DFrame) (w : List (String × ℚ)) (i : ℕ) :
    (classify_errors_and_score df (some w)).1.cell i "Weighted_Errors" =
      (df.rows[i]?).map fun r =>
        Val.num (weightedErrorsRow (errorColsOf df.cols) (finalWeights df w) r) := by
  unfold DFrame.cell classify_errors_and_score
  simp only [addColF_rows, addRowIndex_rows, indexRows_getElem, Option.map_map]
  cases h : df.rows[i]? with
  | none => rfl
  | some r =>
    simp only [Option.map_some', Function.comp]
    rw [Function.update_noteq (by decide : ("Weighted_Errors" : String) ≠ "Error_Log"),
      Function.update_noteq (by decide : ("Weighted_Errors" : String) ≠ "Row_Index"),
      Function.update_noteq (by decide : ("Weighted_Errors" : String) ≠ "Quality_Score (%)"),
      Function.update_noteq (by decide : ("Weighted_Errors" : String) ≠ "Total_Errors"),
      Function.update_same]
    rfl

theorem classify_cell_te (df : DFrame) (w : List (String × ℚ)) (i : ℕ) :
    (classify_errors_and_score df (some w)).1.cell i "Total_Errors" =
      (df.rows[i]?).map fun r => Val.num (totalErrorsRow (errorColsOf df.cols) r) := by
  unfold DFrame.cell classify_errors_and_score
  simp only [addColF_rows, addRowIndex_rows, indexRows_getElem, Option.map_map]
  cases h : df.rows[i]? with
  | none => rfl
  | some r =>
    simp only [Option.map_some', Function.comp]
    rw [Function.update_noteq (by decide : ("Total_Errors" : String) ≠ "Error_Log"),
      Function.update_noteq (by decide : ("Total_Errors" : String) ≠ "Row_Index"),
      Function.update_noteq (by decide : ("Total_Errors" : String) ≠ "Quality_Score (%)"),
      Function.update_same]
    rw [totalErrorsRow_update_ne]
    intro c hc
    exact (errorCol_ne_derived (mem_errorColsOf hc)).1

theorem classify_cell_qs (df : DFrame) (w : List (String × ℚ)) (i : ℕ) :
    (classify_errors_and_score df (some w)).1.cell i "Quality_Score (%)" =
      (df.rows[i]?).map fun r =>
        qualityScoreVal (weightedErrorsRow (errorColsOf df.cols) (finalWeights df w) r)
          (totalWeight df w) := by
  unfold DFrame.cell classify_errors_and_score
  simp only [addColF_rows, addRowIndex_rows, indexRows_getElem, Option.map_map]
  cases h : df.rows[i]? with
  | none => rfl
  | some r =>
    simp only [Option.map_some', Function.comp]
    rw [Function.update_noteq (by decide : ("Quality_Score (%)" : String) ≠ "Error_Log"),
      Function.update_noteq (by decide : ("Quality_Score (%)" : String) ≠ "Row_Index"),
      Function.update_same,
      Function.update_noteq (by decide : ("Weighted_Errors" : String) ≠ "Total_Errors"),
      Function.update_same]
    rfl

theorem errorLogRow_noErrors (ecols cols : List String) (R : Row)
    (h : ∀ c ∈ ecols, (R c).isTruthy = false) : errorLogRow ecols cols R = "No Errors" := by
  unfold errorLogRow
  have hfil : (ecols.filter fun c => (R c).isTruthy) = [] := by
    rw [List.filter_eq_nil_iff]
    intro c hc
    simp [h c hc]
  rw [hfil]
  rfl

theorem classify_cell_log_noErrors (df : DFrame) (w : List (String × ℚ)) {i : ℕ}
    {r : Row} (h : df.rows[i]? = some r)
    (hflags : ∀ c ∈ errorColsOf df.cols, (r c).isTruthy = false) :
    (classify_errors_and_score df (some w)).1.cell i "Error_Log" =
      some (Val.str "No Errors") := by
  unfold DFrame.cell classify_errors_and_score
  simp only [addColF_rows, addRowIndex_rows, indexRows_getElem, Option.map_map, h,
    Option.map_some', Function.comp, Function.update_same]
  refine congrArg some (congrArg Val.str ?_)
  apply errorLogRow_noErrors
  intro c hc
  have hd := errorCol_ne_derived (mem_errorColsOf hc)
  rw [Function.update_noteq hd.2.2.2.1, Function.update_noteq hd.2.2.1,
    Function.update_noteq hd.2.1, Function.update_noteq hd.1]
  exact hflags c hc

theorem qualityScoreVal_of_ne {tw : ℚ} (we : ℚ) (h : tw ≠ 0) :
    qualityScoreVal we tw = Val.num (100 - we / tw * 100) := by
  unfold qualityScoreVal pandasDiv
  rw [if_pos h]

/-! ### Claims about the scoring engine -/

theorem rows_dfC1 : dfC1.rows[0]? = some rowC1 := rfl

theorem ecols_dfC1 : errorColsOf dfC1.cols = ["A_Missing", "B_Missing"] := rfl

theorem fw_dfC1_w1 : finalWeights dfC1 w1C1 = w1C1 := rfl

theorem fw_dfC1_w2 : finalWeights dfC1 w2C1 = w2C1 := rfl

theorem tw_dfC1_w1 : totalWeight dfC1 w1C1 = 2 := by
  unfold totalWeight
  rw [fw_dfC1_w1]
  norm_num [w1C1]

theorem tw_dfC1_w2 : totalWeight dfC1 w2C1 = 3 := by
  unfold totalWeight
  rw [fw_dfC1_w2]
  norm_num [w2C1]

theorem weRow_dfC1_w1 : weightedErrorsRow ["A_Missing", "B_Missing"] w1C1 rowC1 = 1 := by
  have h1 : rowC1 "A_Missing" = Val.bool true := rfl
  have h2 : rowC1 "B_Missing" = Val.bool false := rfl
  have h3 : w1C1.lookup "A_Missing" = some 1 := rfl
  have h4 : w1C1.lookup "B_Missing" = some 1 := rfl
  simp only [weightedErrorsRow, List.map_cons, List.map_nil, List.sum_cons, List.sum_nil,
    h1, h2, h3, h4, Option.getD_some]
  norm_num [Val.asInt]

theorem weRow_dfC1_w2 : weightedErrorsRow ["A_Missing", "B_Missing"] w2C1 rowC1 = 1 := by
  have h1 : rowC1 "A_Missing" = Val.bool true := rfl
  have h2 : rowC1 "B_Missing" = Val.bool false := rfl
  have h3 : w2C1.lookup "A_Missing" = some 1 := rfl
  have h4 : w2C1.lookup "B_Missing" = some 2 := rfl
  simp only [weightedErrorsRow, List.map_cons, List.map_nil, List.sum_cons, List.sum_nil,
    h1, h2, h3, h4, Option.getD_some]
  norm_num [Val.asInt]

theorem lookup_agree_off_B {k : String} (hk : k ≠ "B_Missing") :
    w1C1.lookup k = w2C1.lookup k := by
  have hb : (k == "B_Missing") = false := by simp [hk]
  unfold w1C1 w2C1
  simp only [List.lookup_cons, hb, List.lookup_nil]

theorem dfC1_col_B_false : ∀ r ∈ dfC1.rows, r "B_Missing" = Val.bool false := by
  intro r hr
  simp only [dfC1, List.mem_singleton] at hr
  rw [hr]
  rfl

/-- C1 (counterexample): two weight tables that agree on every flag except `B_Missing`,
a flag false in every record, yield different `Quality_Score (%)` values for record 0:
50 under weight 1 versus 200/3 under weight 2, because `total_weight` (2 versus 3)
includes the weight of the never-triggered flag.  The claim as stated is false on the
code. -/
theorem C1_counterexample :
    (∀ k, k ≠ "B_Missing" → w1C1.lookup k = w2C1.lookup k) ∧
    (∀ r ∈ dfC1.rows, r "B_Missing" = Val.bool false) ∧
    (classify_errors_and_score dfC1 (some w1C1)).1.cell 0 "Quality_Score (%)" ≠
      (classify_errors_and_score dfC1 (some w2C1)).1.cell 0 "Quality_Score (%)" := by
  refine ⟨fun k hk => lookup_agree_off_B hk, dfC1_col_B_false, ?_⟩
  rw [classify_cell_qs, classify_cell_qs, rows_dfC1, Option.map_some', Option.map_some',
    ecols_dfC1, fw_dfC1_w1, fw_dfC1_w2, weRow_dfC1_w1, weRow_dfC1_w2, tw_dfC1_w1,
    tw_dfC1_w2, qualityScoreVal_of_ne 1 (by norm_num : (2 : ℚ) ≠ 0),
    qualityScoreVal_of_ne 1 (by norm_num : (3 : ℚ) ≠ 0)]
  simp only [ne_eq, Option.some.injEq, Val.num.injEq]
  norm_num

/-- C1 (amended): with two weight tables agreeing on every flag except one flag that is
false in every record, every record keeps the same `Weighted_Errors` and the same
`Total_Errors`; a record with zero weighted errors also keeps the same
`Quality_Score (%)` (namely 100) as long as both total weights are nonzero.  The
`Quality_Score (%)` of a record with triggered flags may change, because `total_weight`
sums every weight in the table including that of the never-triggered flag. -/
theorem C1_untriggered_weight_effect (df : DFrame) (w1 w2 : List (String × ℚ))
    (f : String) (hagree : ∀ k, k ≠ f → w1.lookup k = w2.lookup k)
    (hfalse : ∀ r ∈ df.rows, r f = Val.bool false) (i : ℕ) (r : Row)
    (hr : df.rows[i]? = some r) :
    (classify_errors_and_score df (some w1)).1.cell i "Weighted_Errors" =
      (classify_errors_and_score df (some w2)).1.cell i "Weighted_Errors" ∧
    (classify_errors_and_score df (some w1)).1.cell i "Total_Errors" =
      (classify_errors_and_score df (some w2)).1.cell i "Total_Errors" ∧
    (weightedErrorsRow (errorColsOf df.cols) (finalWeights df w1) r = 0 →
      totalWeight df w1 ≠ 0 → totalWeight df w2 ≠ 0 →
      (classify_errors_and_score df (some w1)).1.cell i "Quality_Score (%)" =
        (classify_errors_and_score df (some w2)).1.cell i "Quality_Score (%)") := by
  have hwe : weightedErrorsRow (errorColsOf df.cols) (finalWeights df w1) r =
      weightedErrorsRow (errorColsOf df.cols) (finalWeights df w2) r := by
    unfold weightedErrorsRow
    congr 1
    apply List.map_congr_left
    intro c hc
    by_cases hcf : c = f
    · subst hcf
      rw [hfalse r (List.getElem?_mem hr)]
      simp [Val.asInt]
    · rw [show (finalWeights df w1).lookup c = some ((w1.lookup c).getD 1) from
        lookup_applyDefaults_mem w1 hc,
        show (finalWeights df w2).lookup c = some ((w2.lookup c).getD 1) from
        lookup_applyDefaults_mem w2 hc,
        hagree c hcf]
  refine ⟨?_, ?_, ?_⟩
  · rw [classify_cell_we, classify_cell_we, hr, Option.map_some', Option.map_some', hwe]
  · rw [classify_cell_te, classify_cell_te]
  · intro h0 h1 h2
    rw [classify_cell_qs, classify_cell_qs, hr, Option.map_some', Option.map_some',
      h0, ← hwe, h0, qualityScoreVal_of_ne 0 h1, qualityScoreVal_of_ne 0 h2]
    simp

/-- C1 (amended) witness at the concrete frame and tables of the counterexample. -/
theorem C1_untriggered_weight_effect_witness :
    (classify_errors_and_score dfC1 (some w1C1)).1.cell 0 "Weighted_Errors" =
      (classify_errors_and_score dfC1 (some w2C1)).1.cell 0 "Weighted_Errors" :=
  (C1_untriggered_weight_effect dfC1 w1C1 w2C1 "B_Missing"
    (fun _ hk => lookup_agree_off_B hk) dfC1_col_B_false 0 rowC1 rfl).1

theorem fw_dfC2 : finalWeights dfC2 wC2 = wC2 := rfl

theorem tw_dfC2 : totalWeight dfC2 wC2 = 0 := by
  unfold totalWeight
  rw [fw_dfC2]
  norm_num [wC2]

/-- C2: with a weight table whose total weight is 0, the scoring engine still returns
normally and stores `Quality_Score (%) = NaN` (the pandas elementwise division 0/0),
with no explicit failure surfaced — the spec requires an explicit failure here, so this
is a code bug. -/
theorem C2_zero_total_weight_silent_nan :
    totalWeight dfC2 wC2 = 0 ∧
    (classify_errors_and_score dfC2 (some wC2)).1.cell 0 "Quality_Score (%)" =
      some Val.nan := by
  refine ⟨tw_dfC2, ?_⟩
  rw [classify_cell_qs, show dfC2.rows[0]? = some rowC2 from rfl, Option.map_some',
    show errorColsOf dfC2.cols = ["A_Missing"] from rfl, fw_dfC2, tw_dfC2]
  have hwe : weightedErrorsRow ["A_Missing"] wC2 rowC2 = 0 := by
    have h1 : rowC2 "A_Missing" = Val.bool true := rfl
    have h2 : wC2.lookup "A_Missing" = some 0 := rfl
    simp only [weightedErrorsRow, List.map_cons, List.map_nil, List.sum_cons,
      List.sum_nil, h1, h2, Option.getD_some]
    norm_num [Val.asInt]
  rw [hwe]
  norm_num [qualityScoreVal, pandasDiv]

/-- C3: for a record of a frame whose flag columns hold booleans, and a weight table with
positive total weight, the stored `Quality_Score (%)` equals
`100 × (1 − Weighted_Errors / total_weight)` where the weighted errors sum the weight of
each true flag (a flag without an explicit entry weighing 1) and `total_weight` is the
sum of all values of the (defaulted) weight table. -/
theorem C3_quality_score_formula (df : DFrame) (w : List (String × ℚ)) (i : ℕ) (r : Row)
    (hr : df.rows[i]? = some r)
    (hflags : ∀ c ∈ errorColsOf df.cols, ∃ b, r c = Val.bool b)
    (htw : 0 < totalWeight df w) :
    (classify_errors_and_score df (some w)).1.cell i "Quality_Score (%)" =
      some (Val.num (100 * (1 -
        specWeightedErrors (errorColsOf df.cols) w r / totalWeight df w))) := by
  rw [classify_cell_qs, hr, Option.map_some']
  have hwe : weightedErrorsRow (errorColsOf df.cols) (finalWeights df w) r =
      specWeightedErrors (errorColsOf df.cols) w r := by
    unfold weightedErrorsRow specWeightedErrors
    congr 1
    apply List.map_congr_left
    intro c hc
    obtain ⟨b, hb⟩ := hflags c hc
    rw [hb, show (finalWeights df w).lookup c = some ((w.lookup c).getD 1) from
      lookup_applyDefaults_mem w hc]
    cases b
    · simp [Val.asInt]
    · simp [Val.asInt]
  rw [hwe, qualityScoreVal_of_ne _ (ne_of_gt htw)]
  have harith : (100 : ℚ) -
      specWeightedErrors (errorColsOf df.cols) w r / totalWeight df w * 100 =
      100 * (1 - specWeightedErrors (errorColsOf df.cols) w r / totalWeight df w) := by
    ring
  rw [harith]

/-- C3 witness at the concrete frame of the counterexample data. -/
theorem C3_quality_score_formula_witness :
    (classify_errors_and_score dfC1 (some w1C1)).1.cell 0 "Quality_Score (%)" =
      some (Val.num (100 * (1 -
        specWeightedErrors (errorColsOf dfC1.cols) w1C1 rowC1 / totalWeight dfC1 w1C1))) :=
  C3_quality_score_formula dfC1 w1C1 0 rowC1 rfl
    (by
      intro c hc
      rw [ecols_dfC1] at hc
      rcases List.mem_cons.mp hc with h | h
      · rw [h]; exact ⟨true, rfl⟩
      · rw [List.mem_singleton.mp h]; exact ⟨false, rfl⟩)
    (by rw [tw_dfC1_w1]; norm_num)

/-- C4: a record with every flag false gets `Quality_Score (%) = 100`,
`Error_Log = "No Errors"`, and a `Total_Errors` equal to the number of true flags of the
record (0 here), for any weight table with positive total weight. -/
theorem C4_clean_record (df : DFrame) (w : List (String × ℚ)) (i : ℕ) (r : Row)
    (hr : df.rows[i]? = some r)
    (hflags : ∀ c ∈ errorColsOf df.cols, r c = Val.bool false)
    (htw : 0 < totalWeight df w) :
    (classify_errors_and_score df (some w)).1.cell i "Quality_Score (%)" =
        some (Val.num 100) ∧
    (classify_errors_and_score df (some w)).1.cell i "Error_Log" =
        some (Val.str "No Errors") ∧
    (classify_errors_and_score df (some w)).1.cell i "Total_Errors" =
        some (Val.num
          (((errorColsOf df.cols).countP fun c => r c == Val.bool true : ℕ) : ℚ)) := by
  refine ⟨?_, ?_, ?_⟩
  · rw [classify_cell_qs, hr, Option.map_some']
    have hwe : weightedErrorsRow (errorColsOf df.cols) (finalWeights df w) r = 0 := by
      unfold weightedErrorsRow
      apply List.sum_eq_zero
      intro x hx
      rcases List.mem_map.mp hx with ⟨c, hc, hcx⟩
      rw [← hcx, hflags c hc]
      simp [Val.asInt]
    rw [hwe, qualityScoreVal_of_ne _ (ne_of_gt htw)]
    norm_num
  · exact classify_cell_log_noErrors df w hr fun c hc => by rw [hflags c hc]; rfl
  · rw [classify_cell_te, hr, Option.map_some']
    have hte : totalErrorsRow (errorColsOf df.cols) r = 0 := by
      unfold totalErrorsRow
      apply List.sum_eq_zero
      intro x hx
      rcases List.mem_map.mp hx with ⟨c, hc, hcx⟩
      rw [← hcx, hflags c hc]
      rfl
    have hcount : ((errorColsOf df.cols).countP fun c => r c == Val.bool true) = 0 := by
      rw [List.countP_eq_zero]
      intro c hc
      rw [hflags c hc]
      decide
    rw [hte, hcount]
    norm_num

theorem tw_dfC4_w1 : totalWeight dfC4 w1C1 = 2 := by
  unfold totalWeight
  rw [show finalWeights dfC4 w1C1 = w1C1 from rfl]
  norm_num [w1C1]

/-- C4 witness on a one-record frame whose single flag is false. -/
theorem C4_clean_record_witness :
    (classify_errors_and_score dfC4 (some w1C1)).1.cell 0
        "Quality_Score (%)" = some (Val.num 100) :=
  (C4_clean_record dfC4 w1C1 0 rowC1 rfl
    (by
      intro c hc
      rw [show errorColsOf dfC4.cols = ["B_Missing"] from rfl] at hc
      rw [List.mem_singleton.mp hc]
      rfl)
    (by rw [tw_dfC4_w1]; norm_num)).1

/-- C10: after the scoring engine runs with a caller-supplied weight table, the table
(mutated in place through `setdefault`, modelled as `finalWeights`) holds an entry for
every discovered flag column — the caller's value when one was supplied, else the
default 1 — and every entry the caller supplied is preserved unchanged. -/
theorem C10_weight_table_mutated (df : DFrame) (w : List (String × ℚ)) :
    (∀ c ∈ errorColsOf df.cols,
        (finalWeights df w).lookup c = some ((w.lookup c).getD 1)) ∧
    (∀ k v, w.lookup k = some v → (finalWeights df w).lookup k = some v) := by
  constructor
  · intro c hc
    exact lookup_applyDefaults_mem w hc
  · intro k v hk
    unfold finalWeights
    rw [lookup_applyDefaults, hk]
    rfl

/-- C10 witness: a flag absent from the caller's table gains a defaulted entry and a
caller entry supplied by the caller survives unchanged. -/
theorem C10_weight_table_mutated_witness :
    (finalWeights dfC1 [("B_Missing", 2)]).lookup "A_Missing" = some 1 ∧
    (finalWeights dfC1 [("B_Missing", 2)]).lookup "B_Missing" = some 2 := by
  constructor
  · have h := (C10_weight_table_mutated dfC1 [("B_Missing", 2)]).1 "A_Missing"
      (by rw [ecols_dfC1]; exact List.mem_cons_self _ _)
    rw [h]
    rfl
  · exact (C10_weight_table_mutated dfC1 [("B_Missing", 2)]).2 "B_Missing" 2 rfl

/-! ### Helper lemmas: the missing-value analyzer -/

theorem flagFold_rows (zc : List String) : ∀ (d : DFrame) (i : ℕ),
    (zc.foldl addMissingFlag d).rows[i]? = (d.rows[i]?).map (flagFoldRow zc) := by
  induction zc with
  | nil =>
    intro d i
    show d.rows[i]? = (d.rows[i]?).map (flagFoldRow [])
    cases d.rows[i]? <;> rfl
  | cons z zc ih =>
    intro d i
    rw [List.foldl_cons, ih, addMissingFlag, addColF_rows, Option.map_map]
    rfl

theorem flagFold_cols (zc : List String) : ∀ d : DFrame, zc.Nodup →
    (∀ z ∈ zc, (z ++ "_Missing") ∉ d.cols) →
    (zc.foldl addMissingFlag d).cols = d.cols ++ zc.map (· ++ "_Missing") := by
  induction zc with
  | nil => intro d _ _; simp
  | cons z zc ih =>
    intro d hnd hmem
    have hz : (z ++ "_Missing") ∉ d.cols := hmem z (List.mem_cons_self z zc)
    have hcols : (addMissingFlag d z).cols = d.cols ++ [z ++ "_Missing"] :=
      addColF_cols_of_not_mem d _ _ hz
    have hrest : ∀ z' ∈ zc, (z' ++ "_Missing") ∉ (addMissingFlag d z).cols := by
      intro z' hz'
      rw [hcols]
      intro hmem'
      rcases List.mem_append.mp hmem' with h | h
      · exact hmem z' (List.mem_cons_of_mem z hz') h
      · have he : z' = z := append_suffix_inj (List.mem_singleton.mp h)
        exact (List.nodup_cons.mp hnd).1 (he ▸ hz')
    rw [List.foldl_cons, ih (addMissingFlag d z) (List.nodup_cons.mp hnd).2 hrest, hcols,
      List.map_cons, List.append_assoc]
    rfl

theorem flagFoldRow_eval_of_ne (zc : List String) : ∀ (r : Row) (m : String),
    (∀ z ∈ zc, z ++ "_Missing" ≠ m) → flagFoldRow zc r m = r m := by
  induction zc with
  | nil => intro r m _; rfl
  | cons z zc ih =>
    intro r m h
    have hstep : flagFoldRow (z :: zc) r = flagFoldRow zc
        (Function.update r (z ++ "_Missing") (.bool (r z).eqZero)) := rfl
    rw [hstep, ih _ m fun z' hz' => h z' (List.mem_cons_of_mem z hz'),
      Function.update_noteq (Ne.symm (h z (List.mem_cons_self z zc)))]

theorem flagFoldRow_eval_flag (zc : List String) : ∀ (r : Row) (z : String), z ∈ zc →
    zc.Nodup → hasSuffix z "_Missing" = false →
    flagFoldRow zc r (z ++ "_Missing") = Val.bool ((r z).eqZero) := by
  induction zc with
  | nil => intro r z h _ _; cases h
  | cons z0 zc ih =>
    intro r z hz hnd hsuf
    have hstep : flagFoldRow (z0 :: zc) r = flagFoldRow zc
        (Function.update r (z0 ++ "_Missing") (.bool (r z0).eqZero)) := rfl
    rcases List.mem_cons.mp hz with he | hmem
    · subst he
      have hne : ∀ z' ∈ zc, z' ++ "_Missing" ≠ z ++ "_Missing" := by
        intro z' hz' heq
        have he2 : z' = z := append_suffix_inj heq
        exact (List.nodup_cons.mp hnd).1 (he2 ▸ hz')
      rw [hstep, flagFoldRow_eval_of_ne zc _ _ hne, Function.update_same]
    · have hzne : z ≠ z0 ++ "_Missing" :=
        (ne_of_suffix_mismatch (hasSuffix_append_self z0 "_Missing") hsuf).symm
      rw [hstep, ih _ z hmem (List.nodup_cons.mp hnd).2 hsuf,
        Function.update_noteq hzne]

theorem sum_map_ite_eq_countP (p : String → Bool) (l : List String) :
    (l.map fun z => if p z = true then (1 : ℚ) else 0).sum = (l.countP p : ℚ) := by
  induction l with
  | nil => simp
  | cons a l ih =>
    rw [List.map_cons, List.sum_cons, ih, List.countP_cons]
    by_cases h : p a = true
    · simp only [h, if_true, if_pos]
      push_cast
      ring
    · have hb : p a = false := by revert h; cases p a <;> simp
      simp only [hb, Bool.false_eq_true, if_false, cond_false]
      push_cast
      ring

theorem eqZero_not_isNan {v : Val} (h : v.eqZero = true) : v.isNan = false := by
  cases v <;> simp_all [Val.eqZero, Val.isNan]

theorem countP_add_countP_le_length (l : List String) (p q : String → Bool)
    (h : ∀ x ∈ l, ¬(p x = true ∧ q x = true)) :
    l.countP p + l.countP q ≤ l.length := by
  induction l with
  | nil => simp
  | cons a l ih =>
    rw [List.countP_cons, List.countP_cons, List.length_cons]
    have ha := h a (List.mem_cons_self a l)
    have hl := ih fun x hx => h x (List.mem_cons_of_mem a hx)
    cases hp : p a <;> cases hq : q a <;> simp_all <;> omega

theorem mem_of_lookup {t : List (String × ℚ)} {k : String} {v : ℚ}
    (h : t.lookup k = some v) : (k, v) ∈ t := by
  rcases List.lookup_eq_some_iff.mp h with ⟨l₁, l₂, heq, _⟩
  rw [heq]
  exact List.mem_append_right _ (List.mem_cons_self _ _)

/-- The completeness-score cell produced by `missing_value_analysis`, in closed form:
numerator the explicit missing markers of the record plus its zero-as-missing flags,
denominator the number of original data columns. -/
theorem mva_cell_completeness (df : DFrame) (zc : List String)
    (hnm : ∀ c ∈ df.cols, hasSuffix c "_Missing" = false)
    (hzc : zc ⊆ df.cols) (hzn : zc.Nodup) (i : ℕ) (r : Row)
    (hr : df.rows[i]? = some r) :
    (missing_value_analysis df zc).cell i "Completeness_Score (%)" =
      some (Val.num (100 * (1 -
        ((markerMissingCount df.cols r + zeroMissingCount zc r : ℕ) : ℚ) /
          (df.cols.length : ℚ)))) := by
  have hfl : ∀ z ∈ zc, (z ++ "_Missing") ∉ df.cols := by
    intro z hz hmem
    have := hnm _ hmem
    rw [hasSuffix_append_self] at this
    cases this
  have hzsuf : ∀ z ∈ zc, hasSuffix z "_Missing" = false := fun z hz => hnm z (hzc hz)
  unfold missing_value_analysis DFrame.cell
  rw [addColF_rows]
  set d1 : DFrame :=
    ⟨df.cols, df.rows.map fun r => fun c => (r c).replaceMissing defaultPlaceholders⟩
    with hd1
  have hr1 : d1.rows[i]? =
      some (fun c => (r c).replaceMissing defaultPlaceholders) := by
    rw [hd1]
    simp only [List.getElem?_map, hr, Option.map_some']
  have hcols2 : (zc.foldl addMissingFlag d1).cols = df.cols ++ zc.map (· ++ "_Missing") :=
    flagFold_cols zc d1 hzn hfl
  simp only [flagFold_rows, hr1, Option.map_map, Option.map_some', Function.comp,
    Function.update_same]
  set r1 : Row := fun c => (r c).replaceMissing defaultPlaceholders with hr1def
  have hdcc : (zc.foldl addMissingFlag d1).cols.length -
      (zc.foldl addMissingFlag d1).cols.countP (fun c => hasSuffix c "_Missing") =
      df.cols.length := by
    rw [hcols2, List.length_append, List.countP_append, List.length_map,
      List.countP_map]
    have hz0 : df.cols.countP (fun c => hasSuffix c "_Missing") = 0 := by
      rw [List.countP_eq_zero]
      intro c hc
      rw [hnm c hc]
      simp
    have hzall : zc.countP ((fun c => hasSuffix c "_Missing") ∘ (· ++ "_Missing")) =
        zc.length := by
      rw [List.countP_eq_length]
      intro z _
      exact hasSuffix_append_self z "_Missing"
    rw [hz0, hzall]
    omega
  have hnum : completenessNumerator (zc.foldl addMissingFlag d1).cols zc
      (flagFoldRow zc r1) =
      ((markerMissingCount df.cols r + zeroMissingCount zc r : ℕ) : ℚ) := by
    unfold completenessNumerator
    have hA : (zc.foldl addMissingFlag d1).cols.countP
        (fun c => ((flagFoldRow zc r1) c).isNan) =
        markerMissingCount df.cols r := by
      rw [hcols2, List.countP_append, List.countP_map]
      have h1 : df.cols.countP (fun c => ((flagFoldRow zc r1) c).isNan) =
          df.cols.countP (fun c => (r1 c).isNan) := by
        apply List.countP_congr
        intro c hc
        have hne : ∀ z ∈ zc, z ++ "_Missing" ≠ c := by
          intro z hz
          exact ne_of_suffix_mismatch (hasSuffix_append_self z "_Missing") (hnm c hc)
        rw [flagFoldRow_eval_of_ne zc r1 c hne]
      have h2 : zc.countP ((fun c => ((flagFoldRow zc r1) c).isNan) ∘
          (· ++ "_Missing")) = 0 := by
        rw [List.countP_eq_zero]
        intro z hz
        simp only [Function.comp]
        rw [flagFoldRow_eval_flag zc r1 z hz hzn (hzsuf z hz)]
        simp [Val.isNan]
      rw [h1, h2]
      rfl
    have hB : (zc.map fun z =>
        if (z ++ "_Missing") ∈ (zc.foldl addMissingFlag d1).cols
        then ((flagFoldRow zc r1) (z ++ "_Missing")).numVal else 0).sum =
        (zeroMissingCount zc r : ℚ) := by
      have hcong : (zc.map fun z =>
          if (z ++ "_Missing") ∈ (zc.foldl addMissingFlag d1).cols
          then ((flagFoldRow zc r1) (z ++ "_Missing")).numVal else 0) =
          zc.map fun z => if (r1 z).eqZero = true then (1 : ℚ) else 0 := by
        apply List.map_congr_left
        intro z hz
        have hmem : (z ++ "_Missing") ∈ (zc.foldl addMissingFlag d1).cols := by
          rw [hcols2]
          exact List.mem_append_right _ (List.mem_map.mpr ⟨z, hz, rfl⟩)
        rw [if_pos hmem, flagFoldRow_eval_flag zc r1 z hz hzn (hzsuf z hz)]
        cases hq : (r1 z).eqZero <;> simp [Val.numVal]
      rw [hcong, sum_map_ite_eq_countP]
      rfl
    rw [hA, hB]
    push_cast
    ring
  rw [hdcc, hnum]

/-- C7: the missing-value analyzer stores, for every record, a completeness score of
`100 × (1 − (missing markers + zero-as-missing flags) / D)` where `D` counts the
original data columns (the frame carries no derived `_Missing` column on entry). -/
theorem C7_completeness_formula (df : DFrame) (zc : List String)
    (hne : df.cols ≠ [])
    (hnm : ∀ c ∈ df.cols, hasSuffix c "_Missing" = false)
    (hzc : zc ⊆ df.cols) (hzn : zc.Nodup) (i : ℕ) (r : Row)
    (hr : df.rows[i]? = some r) :
    (missing_value_analysis df zc).cell i "Completeness_Score (%)" =
      some (Val.num (100 * (1 -
        ((markerMissingCount df.cols r + zeroMissingCount zc r : ℕ) : ℚ) /
          (df.cols.length : ℚ)))) :=
  mva_cell_completeness df zc hnm hzc hzn i r hr

/-- C7 witness: one `Glucose` column, one record with value 0; one marker-missing count
0 and one zero-as-missing flag, denominator 1. -/
theorem C7_completeness_formula_witness :
    (missing_value_analysis dfC5 ["Glucose"]).cell 0 "Completeness_Score (%)" =
      some (Val.num (100 * (1 -
        ((markerMissingCount dfC5.cols rowC5 +
          zeroMissingCount ["Glucose"] rowC5 : ℕ) : ℚ) / (dfC5.cols.length : ℚ)))) :=
  C7_completeness_formula dfC5 ["Glucose"] (by decide) (by decide)
    (by intro a h; exact h) (by decide) 0 rowC5 rfl

/-- C5: with non-negative weights, positive total weight and boolean flag columns, each
record's stored completeness score and quality score both lie in [0, 100]. -/
theorem C5_scores_in_range (df : DFrame) (zc : List String) (w : List (String × ℚ))
    (hcols : df.cols.Nodup) (hne : df.cols ≠ [])
    (hnm : ∀ c ∈ df.cols, hasSuffix c "_Missing" = false)
    (hzc : zc ⊆ df.cols) (hzn : zc.Nodup)
    (hw : ∀ p ∈ w, 0 ≤ p.2) (htw : 0 < totalWeight df w)
    (i : ℕ) (r : Row) (hr : df.rows[i]? = some r)
    (hflags : ∀ c ∈ errorColsOf df.cols, ∃ b, r c = Val.bool b) :
    (∃ q : ℚ, (missing_value_analysis df zc).cell i "Completeness_Score (%)" =
        some (Val.num q) ∧ 0 ≤ q ∧ q ≤ 100) ∧
    (∃ q : ℚ, (classify_errors_and_score df (some w)).1.cell i "Quality_Score (%)" =
        some (Val.num q) ∧ 0 ≤ q ∧ q ≤ 100) := by
  constructor
  · have hle : markerMissingCount df.cols r + zeroMissingCount zc r ≤
        df.cols.length := by
      have hsub : zc.countP (fun z => ((r z).replaceMissing defaultPlaceholders).eqZero) ≤
          df.cols.countP fun c => ((r c).replaceMissing defaultPlaceholders).eqZero :=
        (List.subperm_of_subset hzn hzc).countP_le _
      have hdisj := countP_add_countP_le_length df.cols
        (fun c => ((r c).replaceMissing defaultPlaceholders).isNan)
        (fun c => ((r c).replaceMissing defaultPlaceholders).eqZero)
        (by
          intro c _ hand
          have h1 : (Val.replaceMissing defaultPlaceholders (r c)).isNan = true := hand.1
          have h2 : (Val.replaceMissing defaultPlaceholders (r c)).eqZero = true := hand.2
          rw [eqZero_not_isNan h2] at h1
          cases h1)
      unfold markerMissingCount zeroMissingCount
      unfold markerMissingCount at hdisj
      omega
    have hn : (0 : ℚ) < (df.cols.length : ℚ) := by
      have := List.length_pos.mpr hne
      exact_mod_cast this
    have hx0 : (0 : ℚ) ≤
        ((markerMissingCount df.cols r + zeroMissingCount zc r : ℕ) : ℚ) /
          (df.cols.length : ℚ) := by
      apply div_nonneg _ (le_of_lt hn)
      exact_mod_cast Nat.zero_le _
    have hx1 : ((markerMissingCount df.cols r + zeroMissingCount zc r : ℕ) : ℚ) /
        (df.cols.length : ℚ) ≤ 1 := by
      rw [div_le_one hn]
      exact_mod_cast hle
    exact ⟨_, mva_cell_completeness df zc hnm hzc hzn i r hr,
      by nlinarith, by nlinarith⟩
  · have hval : ∀ p ∈ finalWeights df w, 0 ≤ p.2 := by
      intro p hp
      rcases mem_applyDefaults _ _ hp with h | h
      · exact hw p h
      · rw [h]; norm_num
    have hwt : ∀ c ∈ errorColsOf df.cols,
        ∃ v, (finalWeights df w).lookup c = some v ∧ 0 ≤ v := by
      intro c hc
      refine ⟨(w.lookup c).getD 1, lookup_applyDefaults_mem w hc, ?_⟩
      exact hval _ (mem_of_lookup (lookup_applyDefaults_mem w hc))
    have hwe0 : 0 ≤ weightedErrorsRow (errorColsOf df.cols) (finalWeights df w) r := by
      apply List.sum_nonneg
      intro x hx
      rcases List.mem_map.mp hx with ⟨c, hc, hcx⟩
      rw [← hcx]
      obtain ⟨b, hb⟩ := hflags c hc
      obtain ⟨v, hv, hvnn⟩ := hwt c hc
      rw [hb, hv, Option.getD_some]
      cases b
      · simp [Val.asInt]
      · simpa [Val.asInt] using hvnn
    have hwele : weightedErrorsRow (errorColsOf df.cols) (finalWeights df w) r ≤
        ((errorColsOf df.cols).map fun c => ((finalWeights df w).lookup c).getD 0).sum := by
      unfold weightedErrorsRow
      apply List.sum_le_sum
      intro c hc
      obtain ⟨b, hb⟩ := hflags c hc
      obtain ⟨v, hv, hvnn⟩ := hwt c hc
      rw [hb, hv, Option.getD_some]
      cases b
      · simpa [Val.asInt] using hvnn
      · simp [Val.asInt]
    have hsum : ((errorColsOf df.cols).map fun c =>
        ((finalWeights df w).lookup c).getD 0).sum ≤
        ((finalWeights df w).map Prod.snd).sum := by
      apply sum_lookup_le
      · exact hcols.filter _
      · intro c hc
        rw [show finalWeights df w = applyDefaults w (errorColsOf df.cols) from rfl,
          lookup_applyDefaults_mem w hc]
        rfl
      · exact hval
    have hwetw : weightedErrorsRow (errorColsOf df.cols) (finalWeights df w) r ≤
        totalWeight df w :=
      le_trans hwele hsum
    have hx0 : (0 : ℚ) ≤
        weightedErrorsRow (errorColsOf df.cols) (finalWeights df w) r /
          totalWeight df w :=
      div_nonneg hwe0 (le_of_lt htw)
    have hx1 : weightedErrorsRow (errorColsOf df.cols) (finalWeights df w) r /
        totalWeight df w ≤ 1 :=
      (div_le_one htw).mpr hwetw
    refine ⟨100 - weightedErrorsRow (errorColsOf df.cols) (finalWeights df w) r /
        totalWeight df w * 100, ?_, by nlinarith, by nlinarith⟩
    rw [classify_cell_qs, hr, Option.map_some',
      qualityScoreVal_of_ne _ (ne_of_gt htw)]

/-- C5 witness: a one-column frame with a single zero-valued record, zero-as-missing on
that column, and a positive weight table. -/
theorem C5_scores_in_range_witness :
    (∃ q : ℚ, (missing_value_analysis dfC5 ["Glucose"]).cell 0 "Completeness_Score (%)" =
        some (Val.num q) ∧ 0 ≤ q ∧ q ≤ 100) ∧
    (∃ q : ℚ, (classify_errors_and_score dfC5 (some wC5)).1.cell 0 "Quality_Score (%)" =
        some (Val.num q) ∧ 0 ≤ q ∧ q ≤ 100) :=
  C5_scores_in_range dfC5 ["Glucose"] wC5 (by decide) (by decide) (by decide)
    (by intro a h; exact h) (by decide)
    (by
      intro p hp
      rw [List.mem_singleton.mp hp]
      norm_num)
    (by
      unfold totalWeight
      rw [show finalWeights dfC5 wC5 = wC5 from rfl]
      norm_num [wC5])
    0 rowC5 rfl
    (by
      intro c hc
      rw [show errorColsOf dfC5.cols = [] from rfl] at hc
      exact absurd hc (List.not_mem_nil c))

/-! ### Claims about the univariate outlier detector and the range validator -/

/-- C6: with both quartiles defined over the non-missing values of the series, the
detector flags exactly the values strictly outside the inclusive Tukey fence. -/
theorem C6_iqr_fence (s : List Val) (i : ℕ) (v : ℚ) (Q1 Q3 : ℚ)
    (hv : s[i]? = some (Val.num v))
    (h1 : quantile (nonMissingVals s) 1 4 = some Q1)
    (h3 : quantile (nonMissingVals s) 3 4 = some Q3) :
    ((detect_outliers_iqr s)[i]? = some false ↔
      Q1 - 3/2 * (Q3 - Q1) ≤ v ∧ v ≤ Q3 + 3/2 * (Q3 - Q1)) ∧
    ((detect_outliers_iqr s)[i]? = some true ↔
      ¬(Q1 - 3/2 * (Q3 - Q1) ≤ v ∧ v ≤ Q3 + 3/2 * (Q3 - Q1))) := by
  have hd : detect_outliers_iqr s = s.map fun x =>
      !x.betweenQ (Q1 - 3/2 * (Q3 - Q1)) (Q3 + 3/2 * (Q3 - Q1)) := by
    unfold detect_outliers_iqr
    rw [h1, h3]
  rw [hd, List.getElem?_map, hv, Option.map_some']
  simp only [Option.some.injEq, Bool.not_eq_false', Bool.not_eq_true', Val.betweenQ,
    Val.toNum, Bool.and_eq_true, decide_eq_true_eq, Bool.and_eq_false_iff,
    decide_eq_false_iff_not]
  tauto

theorem sortC6 : List.insertionSort (· ≤ ·) [(1 : ℚ), 2, 3, 100] = [1, 2, 3, 100] := by
  decide

theorem quantC6_1 : quantile (nonMissingVals sC6) 1 4 = some (7/4) := by
  rw [show nonMissingVals sC6 = [(1 : ℚ), 2, 3, 100] from rfl]
  simp only [quantile, sortC6, List.length_cons, List.length_nil]
  norm_num [List.getD]

theorem quantC6_3 : quantile (nonMissingVals sC6) 3 4 = some (109/4) := by
  rw [show nonMissingVals sC6 = [(1 : ℚ), 2, 3, 100] from rfl]
  simp only [quantile, sortC6, List.length_cons, List.length_nil]
  norm_num [List.getD]

/-- C6 witness: the series 1, 2, 3, 100; the value 2 sits inside the fence and is not
flagged. -/
theorem C6_iqr_fence_witness :
    quantile (nonMissingVals sC6) 1 4 = some (7/4) ∧
    quantile (nonMissingVals sC6) 3 4 = some (109/4) ∧
    ((detect_outliers_iqr sC6)[1]? = some false ↔
      7/4 - 3/2 * (109/4 - 7/4) ≤ (2 : ℚ) ∧ (2 : ℚ) ≤ 109/4 + 3/2 * (109/4 - 7/4)) :=
  ⟨quantC6_1, quantC6_3,
    (C6_iqr_fence sC6 1 2 (7/4) (109/4) rfl quantC6_1 quantC6_3).1⟩

theorem detect_entry_nan (s : List Val) (i : ℕ) (hv : s[i]? = some Val.nan) :
    (detect_outliers_iqr s)[i]? = some true := by
  unfold detect_outliers_iqr
  split
  · rw [List.getElem?_map, hv]
    rfl
  · rw [List.getElem?_map, hv]
    rfl

theorem addColF_cell_ne (d : DFrame) (n : String) (f : Row → Val) (j : ℕ) (m : String)
    (h : n ≠ m) : (d.addColF n f).cell j m = d.cell j m := by
  unfold DFrame.cell
  rw [addColF_rows, Option.map_map]
  cases hr : d.rows[j]?
  · rfl
  · simp only [Option.map_some', Function.comp]
    rw [Function.update_noteq (Ne.symm h)]

theorem rangeFold_cell_of_ne (rs : List (String × ℚ × ℚ)) :
    ∀ (d : DFrame) (j : ℕ) (m : String),
    (∀ p ∈ rs, p.1 ++ "_RangeError" ≠ m) →
    (clinical_range_check d rs).cell j m = d.cell j m := by
  induction rs with
  | nil => intro d j m _; rfl
  | cons p rs ih =>
    intro d j m h
    have hstep : clinical_range_check d (p :: rs) =
        clinical_range_check
          (if p.1 ∈ d.cols then
            d.addColF (p.1 ++ "_RangeError") fun r => .bool (!(r p.1).betweenQ p.2.1 p.2.2)
          else d) rs := rfl
    rw [hstep, ih _ j m fun p' hp' => h p' (List.mem_cons_of_mem p hp')]
    split
    · exact addColF_cell_ne d _ _ j m (h p (List.mem_cons_self p rs))
    · rfl

theorem rangeCheck_cell (rs : List (String × ℚ × ℚ)) : ∀ (d : DFrame) (r : Row) (j : ℕ),
    (rs.map Prod.fst).Nodup →
    ∀ (c : String) (lo hi : ℚ), (c, lo, hi) ∈ rs → c ∈ d.cols →
    hasSuffix c "_RangeError" = false →
    d.rows[j]? = some r →
    (clinical_range_check d rs).cell j (c ++ "_RangeError") =
      some (Val.bool (!(r c).betweenQ lo hi)) := by
  induction rs with
  | nil => intro d r j _ c lo hi h; cases h
  | cons p rs ih =>
    intro d r j hnd c lo hi hmem hcin hcsuf hr
    rcases List.mem_cons.mp hmem with he | hmem'
    · have hp1 : p.1 = c := by rw [← he]
      have hstep : clinical_range_check d (p :: rs) =
          clinical_range_check
            (d.addColF (c ++ "_RangeError") fun r => .bool (!(r c).betweenQ lo hi))
            rs := by
        show clinical_range_check
          (if p.1 ∈ d.cols then
            d.addColF (p.1 ++ "_RangeError") fun r => .bool (!(r p.1).betweenQ p.2.1 p.2.2)
          else d) rs = _
        rw [← he]
        dsimp only
        rw [if_pos hcin]
      have hne : ∀ p' ∈ rs, p'.1 ++ "_RangeError" ≠ c ++ "_RangeError" := by
        intro p' hp' heq
        have he1 : p'.1 = c := append_suffix_inj heq
        have : p.1 ∈ rs.map Prod.fst := by
          rw [hp1, ← he1]
          exact List.mem_map.mpr ⟨p', hp', rfl⟩
        exact (List.nodup_cons.mp (by simpa using hnd)).1 this
      rw [hstep, rangeFold_cell_of_ne rs _ j _ hne]
      unfold DFrame.cell
      rw [addColF_rows, hr]
      simp only [Option.map_some', Function.update_same]
    · have hflag_ne_c : c ≠ p.1 ++ "_RangeError" :=
        (ne_of_suffix_mismatch (hasSuffix_append_self p.1 "_RangeError") hcsuf).symm
      by_cases hpin : p.1 ∈ d.cols
      · have hstep : clinical_range_check d (p :: rs) =
            clinical_range_check
              (d.addColF (p.1 ++ "_RangeError")
                fun r => .bool (!(r p.1).betweenQ p.2.1 p.2.2)) rs := by
          show clinical_range_check
            (if p.1 ∈ d.cols then
              d.addColF (p.1 ++ "_RangeError")
                fun r => .bool (!(r p.1).betweenQ p.2.1 p.2.2)
            else d) rs = _
          rw [if_pos hpin]
        have hr' : (d.addColF (p.1 ++ "_RangeError")
            fun r => .bool (!(r p.1).betweenQ p.2.1 p.2.2)).rows[j]? =
            some (Function.update r (p.1 ++ "_RangeError")
              (.bool (!(r p.1).betweenQ p.2.1 p.2.2))) := by
          rw [addColF_rows, hr]
          rfl
        rw [hstep, ih _ _ j (by simpa using (List.nodup_cons.mp (by simpa using hnd)).2)
          c lo hi hmem' (mem_addColF_cols d _ _ hcin) hcsuf hr',
          Function.update_noteq hflag_ne_c]
      · have hstep : clinical_range_check d (p :: rs) = clinical_range_check d rs := by
          show clinical_range_check
            (if p.1 ∈ d.cols then
              d.addColF (p.1 ++ "_RangeError")
                fun r => .bool (!(r p.1).betweenQ p.2.1 p.2.2)
            else d) rs = _
          rw [if_neg hpin]
        rw [hstep]
        exact ih d r j (by simpa using (List.nodup_cons.mp (by simpa using hnd)).2)
          c lo hi hmem' hcin hcsuf hr

/-- C9: a record whose value in a checked field is missing (NaN) fails both checks: the
univariate outlier detector flags it (whatever the fence, the negated inclusive between
is true on NaN), and the clinical range validator flags it. -/
theorem C9_missing_fails_checks (s : List Val) (i : ℕ) (hv : s[i]? = some Val.nan)
    (df : DFrame) (ranges : List (String × ℚ × ℚ)) (c : String) (lo hi : ℚ)
    (hkeys : (ranges.map Prod.fst).Nodup) (hcr : (c, lo, hi) ∈ ranges)
    (hcin : c ∈ df.cols) (hcsuf : hasSuffix c "_RangeError" = false)
    (j : ℕ) (r : Row) (hr : df.rows[j]? = some r) (hmiss : r c = Val.nan) :
    (detect_outliers_iqr s)[i]? = some true ∧
    (clinical_range_check df ranges).cell j (c ++ "_RangeError") =
      some (Val.bool true) := by
  refine ⟨detect_entry_nan s i hv, ?_⟩
  rw [rangeCheck_cell ranges df r j hkeys c lo hi hcr hcin hcsuf hr, hmiss]
  rfl

/-- C9 witness: a series with a missing middle entry, and a one-column frame whose
record is missing in the checked `BMI` field. -/
theorem C9_missing_fails_checks_witness :
    (detect_outliers_iqr sC9)[1]? = some true ∧
    (clinical_range_check dfC9 [("BMI", 10, 60)]).cell 0 ("BMI" ++ "_RangeError") =
      some (Val.bool true) :=
  C9_missing_fails_checks sC9 1 rfl dfC9 [("BMI", 10, 60)] "BMI" 10 60
    (by decide) (List.mem_singleton.mpr rfl) (by decide) (by decide) 0 rowC9 rfl rfl

/-! ### Claim about the multivariate anomaly detector -/

/-- C8: the repo-side anomaly detection is deterministic in the seed and input: the
median-imputed feature matrix is a pure function of the frame, and the only other
input to the (seed-honoring, per its contract deterministic) forest is the seed and the
contamination.  Two runs whose forest evaluations agree at that exact triple produce
identical `Row_AnomalyIF` assignments. -/
theorem C8_anomaly_deterministic (f1 f2 : ℚ → ℕ → List (List Val) → List Int)
    (df : DFrame) (cols : List String) (c : ℚ) (seed : ℕ)
    (h : f1 c seed (featureMatrix df cols) = f2 c seed (featureMatrix df cols)) :
    anomaly_detection_isolation_forest f1 df cols c seed =
      anomaly_detection_isolation_forest f2 df cols c seed := by
  unfold anomaly_detection_isolation_forest
  rw [h]

/-- C8 witness: two runs of the same forest at the same seed and frame coincide. -/
theorem C8_anomaly_deterministic_witness :
    anomaly_detection_isolation_forest forestC8 dfC5 ["Glucose"] (1/20) 42 =
      anomaly_detection_isolation_forest forestC8 dfC5 ["Glucose"] (1/20) 42 :=
  C8_anomaly_deterministic forestC8 forestC8 dfC5 ["Glucose"] (1/20) 42 rfl

end EHRAudit
